import Mathlib

/-!
# The contract build script `compile.js`

A shallow embedding of `src/compile.js`, the batch step that compiles every
`.sol` file of the `contracts` folder with `solc` and saves, for each compiled
contract, its ABI and its bytecode in the `artifacts` folder.

The script is a top-level sequence of statements.  It is embedded as a function
from the things the script observes (the directory listing, the file contents,
the answers of `solc`, the failures of the file system) to the ordered trace of
the effects it performs and the way the process ends.  The file system left by
a run is obtained by replaying the trace.

Conventions of the embedding:

* a parsed JavaScript object is the list of its own properties in enumeration
  order (the order followed by `for ... in` and by `JSON.stringify`); the keys of
  such a list are distinct, as they are in an object built by `JSON.parse`;
* the value `JSON.parse(solc.compile(...))` has the shape of the compiler's
  standard JSON output: `errors` and `contracts` may be absent, a diagnostic may
  lack `severity` or `formattedMessage`, a contract may lack `evm` or
  `evm.bytecode`;
* `fs.readdirSync(contractsDir)` and `fs.mkdirSync(artifactsDir)` succeed;
* whether `fs.writeFileSync` fails depends on the path and the data only, and a
  write that fails leaves the file system as it was;
* the artifacts folder is not the contracts folder: a write of the script changes
  neither the listing nor the contents of the contracts folder.
-/

namespace Compile

/-! ## JSON values and `JSON.stringify(value, null, 2)` -/

mutual
/-- A JSON value.  A number is carried as the text `JSON.stringify` prints for it. -/
inductive Json where
  | null
  | bool (b : Bool)
  | num (text : String)
  | str (s : String)
  | arr (items : JsonList)
  | obj (members : JsonMembers)
/-- The elements of a JSON array. -/
inductive JsonList where
  | nil
  | cons (head : Json) (tail : JsonList)
/-- The properties of a JSON object, in enumeration order. -/
inductive JsonMembers where
  | nil
  | cons (key : String) (value : Json) (tail : JsonMembers)
end

/-- The lower-case hexadecimal digit of a number below sixteen. -/
def hexDigit (n : Nat) : Char :=
  if n < 10 then Char.ofNat (48 + n) else Char.ofNat (87 + n)

/-- The escape `JSON.stringify` writes for one character of a string. -/
def quoteChar (c : Char) : List Char :=
  if c = '"' then ['\\', '"']
  else if c = '\\' then ['\\', '\\']
  else if c = '\x08' then ['\\', 'b']
  else if c = '\x0c' then ['\\', 'f']
  else if c = '\n' then ['\\', 'n']
  else if c = '\r' then ['\\', 'r']
  else if c = '\t' then ['\\', 't']
  else if c.toNat < 32 then
    ['\\', 'u', '0', '0', hexDigit (c.toNat / 16), hexDigit (c.toNat % 16)]
  else [c]

/-- A string as a JSON string literal. -/
def quote (s : String) : String :=
  "\"" ++ String.mk (s.data.flatMap quoteChar) ++ "\""

mutual
/-- The text of `JSON.stringify(value, null, 2)` for a value printed at the
indentation `indent`; the call of the script is `stringify ""`. -/
def Json.stringify (indent : String) : Json → String
  | .null => "null"
  | .bool true => "true"
  | .bool false => "false"
  | .num text => text
  | .str s => quote s
  | .arr .nil => "[]"
  | .arr (.cons x xs) =>
      "[\n" ++ indent ++ "  " ++ x.stringify (indent ++ "  ")
        ++ xs.stringify (indent ++ "  ") ++ "\n" ++ indent ++ "]"
  | .obj .nil => "\x7b\x7d"
  | .obj (.cons k v ms) =>
      "\x7b\n" ++ indent ++ "  " ++ quote k ++ ": " ++ v.stringify (indent ++ "  ")
        ++ ms.stringify (indent ++ "  ") ++ "\n" ++ indent ++ "\x7d"
/-- The elements after the first one, each on a line of its own. -/
def JsonList.stringify (indent : String) : JsonList → String
  | .nil => ""
  | .cons x xs => ",\n" ++ indent ++ x.stringify indent ++ xs.stringify indent
/-- The properties after the first one, each on a line of its own. -/
def JsonMembers.stringify (indent : String) : JsonMembers → String
  | .nil => ""
  | .cons k v ms =>
      ",\n" ++ indent ++ quote k ++ ": " ++ v.stringify indent ++ ms.stringify indent
end

/-! ## The data exchanged with the compiler -/

/-- A thrown JavaScript error, reduced to its `message`. -/
structure JsError where
  message : String
deriving DecidableEq, Repr

/-- The `TypeError` of reading the property `prop` of `undefined`. -/
def typeError (prop : String) : JsError :=
  ⟨"Cannot read properties of undefined (reading \x27" ++ prop ++ "\x27)"⟩

/-- The object `input` built for one file (lines 25-39). -/
structure CompileRequest where
  language : String
  sources : List (String × String)
  outputSelection : List (String × List (String × List String))
deriving DecidableEq, Repr

/-- One entry `err` of `output.errors`. -/
structure Diagnostic where
  severity : Option String
  formattedMessage : Option String
deriving DecidableEq, Repr

/-- The value of `contract.evm.bytecode`. -/
structure Bytecode where
  object : String
deriving DecidableEq, Repr

/-- The value of `contract.evm`. -/
structure Evm where
  bytecode : Option Bytecode
deriving DecidableEq, Repr

/-- One value `contract` of `output.contracts[fileName]`. -/
structure CompiledUnit where
  abi : Json
  evm : Option Evm

/-- The value `output` parsed from the compiler's answer. -/
structure CompileResult where
  errors : Option (List Diagnostic)
  contracts : Option (List (String × List (String × CompiledUnit)))

/-! ## What the script observes -/

/-- Everything a run observes from outside.  `compile input` stands for
`JSON.parse(solc.compile(JSON.stringify(input)))`, which throws when the compiler
throws or when its answer is not JSON.  `writeFileSync path data` is the error
thrown by that write, if it throws. -/
structure World where
  contractsDir : String
  artifactsDir : String
  pathJoin : String → String → String
  readdirSync : List String
  readFileSync : String → Except JsError String
  compile : CompileRequest → Except JsError CompileResult
  writeFileSync : String → String → Option JsError

/-- An effect performed by the script, or a call of the compiler.  `log line` is
a call of `console.log` with the single argument `line`, which Node prints as it
is.  `error args` is a call of `console.error` with the arguments `args`: Node
prints them through `util.format`, which joins them with a blank unless the
first one holds a `%` directive. -/
inductive Event where
  | mkdirSync (path : String)
  | compile (input : CompileRequest)
  | writeFileSync (path : String) (data : String)
  | log (line : String)
  | error (args : List String)
deriving DecidableEq, Repr

/-- The effects of a block of statements, and the error it threw, if any. -/
structure Outcome where
  events : List Event
  thrown : Option JsError
deriving DecidableEq, Repr

/-- The way the process ends: the end of the script, `process.exit(1)`, or an
error no `catch` handles. -/
inductive Exit where
  | completed
  | exited (code : Nat)
  | uncaught (err : JsError)
deriving DecidableEq, Repr

/-- The exit status of the process: Node ends with status 1 on an uncaught error. -/
def Exit.status : Exit → Nat
  | .completed => 0
  | .exited code => code
  | .uncaught _ => 1

/-- The trace of a whole run and the way it ends. -/
structure Run where
  events : List Event
  exit : Exit
deriving DecidableEq, Repr

/-! ## The script -/

/-- The test `file.endsWith('.sol')`. -/
def endsWithSol (file : String) : Bool :=
  ".sol".data.isSuffixOf file.data

/-- The object `input` (lines 25-39). -/
def mkInput (fileName source : String) : CompileRequest :=
  { language := "Solidity"
    sources := [(fileName, source)]
    outputSelection := [("*", [("*", ["*"])])] }

/-- The line printed for one diagnostic (line 46). -/
def diagnosticLine (err : Diagnostic) : String :=
  (if err.severity = some "error" then "❌" else "⚠️") ++ " "
    ++ (match err.formattedMessage with
        | some text => text
        | none => "undefined")

/-- The loop `for (const err of output.errors)` (lines 45-47). -/
def reportErrors : List Diagnostic → List Event
  | [] => []
  | err :: rest => Event.log (diagnosticLine err) :: reportErrors rest

/-- The statement `if (output.errors) { ... }` (lines 44-48). -/
def reportDiagnostics : Option (List Diagnostic) → List Event
  | none => []
  | some errors => reportErrors errors

/-- The expression `contract.evm.bytecode.object` (line 56). -/
def bytecodeObject (contract : CompiledUnit) : Except JsError String :=
  match contract.evm with
  | none => .error (typeError "bytecode")
  | some evm =>
    match evm.bytecode with
    | none => .error (typeError "object")
    | some bytecode => .ok bytecode.object

/-- The path `abiPath` (line 52). -/
def abiPath (w : World) (contractName : String) : String :=
  w.pathJoin w.artifactsDir (contractName ++ ".abi.json")

/-- The path `bytecodePath` (line 53). -/
def bytecodePath (w : World) (contractName : String) : String :=
  w.pathJoin w.artifactsDir (contractName ++ ".bin.txt")

/-- The three lines printed once both files of a contract are saved (lines 58-60). -/
def savedLines (w : World) (contractName : String) : List Event :=
  [ Event.log ("\n✅ Compiled: " ++ contractName),
    Event.log ("📦 ABI saved to: " ++ abiPath w contractName),
    Event.log ("🔗 Bytecode saved to: " ++ bytecodePath w contractName) ]

/-- The loop `for (const contractName in output.contracts[fileName])`
(lines 50-61) over the properties of that object. -/
def persistUnits (w : World) : List (String × CompiledUnit) → Outcome
  | [] => ⟨[], none⟩
  | (contractName, contract) :: rest =>
    match w.writeFileSync (abiPath w contractName) (contract.abi.stringify "") with
    | some err => ⟨[], some err⟩
    | none =>
      match bytecodeObject contract with
      | .error err =>
        ⟨[Event.writeFileSync (abiPath w contractName) (contract.abi.stringify "")], some err⟩
      | .ok object =>
        match w.writeFileSync (bytecodePath w contractName) object with
        | some err =>
          ⟨[Event.writeFileSync (abiPath w contractName) (contract.abi.stringify "")],
            some err⟩
        | none =>
          ⟨[Event.writeFileSync (abiPath w contractName) (contract.abi.stringify ""),
              Event.writeFileSync (bytecodePath w contractName) object]
              ++ savedLines w contractName ++ (persistUnits w rest).events,
            (persistUnits w rest).thrown⟩

/-- The statements of the `try` block after `output` is parsed (lines 44-61).
Reading `output.contracts[fileName]` throws when `output.contracts` is absent; a
`for ... in` over an absent property runs no iteration. -/
def processOutput (w : World) (fileName : String) (output : CompileResult) : Outcome :=
  match output.contracts with
  | none => ⟨reportDiagnostics output.errors, some (typeError fileName)⟩
  | some contracts =>
    match contracts.lookup fileName with
    | none => ⟨reportDiagnostics output.errors, none⟩
    | some units =>
      ⟨reportDiagnostics output.errors ++ (persistUnits w units).events,
        (persistUnits w units).thrown⟩

/-- The two arguments of the `console.error` of the `catch` block (line 63): the
text naming the file, and `err.message`. -/
def failedLine (fileName : String) (err : JsError) : List String :=
  ["❌ Compilation failed for " ++ fileName ++ ":", err.message]

/-- The `catch` block (lines 62-64) for what the `try` block threw. -/
def catchBlock (fileName : String) : Option JsError → List Event
  | none => []
  | some err => [Event.error (failedLine fileName err)]

/-- The `try ... catch` statement of one file (lines 41-64). -/
def compileFile (w : World) (fileName source : String) : List Event :=
  match w.compile (mkInput fileName source) with
  | .error err =>
    [Event.compile (mkInput fileName source), Event.error (failedLine fileName err)]
  | .ok output =>
    Event.compile (mkInput fileName source) :: (processOutput w fileName output).events
      ++ catchBlock fileName (processOutput w fileName output).thrown

/-- The loop `for (const fileName of files)` (lines 21-65).  The read of line 23
stands before the `try` block: an error it throws ends the loop. -/
def compileAll (w : World) : List String → Outcome
  | [] => ⟨[], none⟩
  | fileName :: rest =>
    match w.readFileSync (w.pathJoin w.contractsDir fileName) with
    | .error err => ⟨[], some err⟩
    | .ok source =>
      ⟨compileFile w fileName source ++ (compileAll w rest).events, (compileAll w rest).thrown⟩

/-- The list `files` (line 14). -/
def files (w : World) : List String :=
  w.readdirSync.filter endsWithSol

/-- The statements after the creation of the artifacts folder (lines 13-65). -/
def main (w : World) : Run :=
  if (files w).length = 0 then
    ⟨[Event.error ["❌ No .sol files found in the contracts folder."]], Exit.exited 1⟩
  else
    ⟨(compileAll w (files w)).events,
      match (compileAll w (files w)).thrown with
      | none => Exit.completed
      | some err => Exit.uncaught err⟩

/-- The whole script, given the value of `fs.existsSync(artifactsDir)`. -/
def run (w : World) (artifactsDirExists : Bool) : Run :=
  ⟨(if artifactsDirExists then [] else [Event.mkdirSync w.artifactsDir]) ++ (main w).events,
    (main w).exit⟩

/-! ## Reading a trace -/

/-- The file written by an event, if it is a write: path and contents. -/
def Event.written : Event → Option (String × String)
  | Event.writeFileSync path data => some (path, data)
  | _ => none

/-- The request sent by an event, if it is a call of the compiler. -/
def Event.request : Event → Option CompileRequest
  | Event.compile input => some input
  | _ => none

/-- The files written by a trace, in order: path and contents. -/
def writes (events : List Event) : List (String × String) :=
  events.filterMap Event.written

/-- The requests sent to the compiler by a trace, in order. -/
def compilerCalls (events : List Event) : List CompileRequest :=
  events.filterMap Event.request

/-! ## The file system left by a run -/

/-- The folders and the files of the file system, by path. -/
@[ext]
structure FileSystem where
  dirs : String → Bool
  files : String → Option String

/-- The test `fs.existsSync(path)`. -/
def FileSystem.existsSync (fs : FileSystem) (path : String) : Bool :=
  fs.dirs path || (fs.files path).isSome

/-- The effect of one event on the file system: a write replaces the contents. -/
def FileSystem.apply (fs : FileSystem) : Event → FileSystem
  | Event.mkdirSync path => { fs with dirs := fun p => if p = path then true else fs.dirs p }
  | Event.writeFileSync path data =>
    { fs with files := fun p => if p = path then some data else fs.files p }
  | _ => fs

/-- The effect of a trace on the file system. -/
def FileSystem.applyAll (fs : FileSystem) : List Event → FileSystem
  | [] => fs
  | e :: rest => (fs.apply e).applyAll rest

/-- The file system left by a run started on `fs`. -/
def exec (w : World) (fs : FileSystem) : FileSystem :=
  fs.applyAll (run w (fs.existsSync w.artifactsDir)).events

/-- The contents last written at `path` by a trace, if the trace writes there. -/
def lastWrite : List Event → String → Option String
  | [], _ => none
  | e :: rest, path =>
    match lastWrite rest path with
    | some data => some data
    | none =>
      match e with
      | Event.writeFileSync p data => if path = p then some data else none
      | _ => none

/-! ## The contracts and the paths of a file -/

/-- The contracts the compiler returns for a file of the contracts folder: the
properties of `output.contracts[fileName]`, none when the file cannot be read,
the call throws or the result has no such entry. -/
def returnedUnits (w : World) (fileName : String) : List (String × CompiledUnit) :=
  match w.readFileSync (w.pathJoin w.contractsDir fileName) with
  | .error _ => []
  | .ok source =>
    match w.compile (mkInput fileName source) with
    | .error _ => []
    | .ok output =>
      match output.contracts with
      | none => []
      | some contracts => (contracts.lookup fileName).getD []

/-- The paths written by the iteration of the loop for a file, in order. -/
def writtenPaths (w : World) (fileName : String) : List String :=
  match w.readFileSync (w.pathJoin w.contractsDir fileName) with
  | .error _ => []
  | .ok source => (writes (compileFile w fileName source)).map Prod.fst

/-! ## Example worlds -/

/-- The join of a folder and a plain file name on a POSIX system. -/
def posixJoin (dir name : String) : String :=
  dir ++ "/" ++ name

/-- A contract record with its ABI and its bytecode. -/
def completeUnit (abi : Json) (object : String) : CompiledUnit :=
  ⟨abi, some ⟨some ⟨object⟩⟩⟩

/-- The ABI of a contract with a constructor and nothing else. -/
def constructorAbi : Json :=
  .arr (.cons (.obj (.cons "type" (.str "constructor") (.cons "inputs" (.arr .nil) .nil))) .nil)

/-- The result for `A.sol`, which defines `Foo` and `Bar`. -/
def resultA : CompileResult :=
  { errors := none
    contracts := some [("A.sol", [("Foo", completeUnit constructorAbi "6080"),
                                  ("Bar", completeUnit (.arr .nil) "60a0")])] }

/-- The result for `B.sol`, which has a syntax error and yields no contract. -/
def resultB : CompileResult :=
  { errors := some [⟨some "error", some "ParserError: Expected identifier"⟩]
    contracts := none }

/-- The result for `D.sol`, compiled with an error and a diagnostic without
severity or formatted message, and still yielding `Baz`. -/
def resultD : CompileResult :=
  { errors := some [⟨some "error", some "TypeError: bad"⟩, ⟨none, none⟩]
    contracts := some [("D.sol", [("Baz", completeUnit (.arr .nil) "60c0")])] }

/-- The answers of the compiler in the world `scenario`; the compiler crashes on
every file other than `A.sol`, `B.sol` and `D.sol`. -/
def scenarioCompile (input : CompileRequest) : Except JsError CompileResult :=
  if input.sources.map Prod.fst = ["A.sol"] then .ok resultA
  else if input.sources.map Prod.fst = ["B.sol"] then .ok resultB
  else if input.sources.map Prod.fst = ["D.sol"] then .ok resultD
  else .error ⟨"Unexpected token < in JSON at position 0"⟩

/-- A world whose files are all readable and whose writes all succeed. -/
def scenario : World :=
  { contractsDir := "/app/contracts"
    artifactsDir := "/app/artifacts"
    pathJoin := posixJoin
    readdirSync := ["A.sol", "notes.txt", "B.sol", "C.sol", "D.sol"]
    readFileSync := fun path => .ok ("// " ++ path)
    compile := scenarioCompile
    writeFileSync := fun _ _ => none }

/-- The world `scenario` with a file `B.sol` that cannot be read. -/
def unreadableB : World :=
  { scenario with
    readFileSync := fun path =>
      if path = "/app/contracts/B.sol" then
        .error ⟨"EACCES: permission denied, open \x27/app/contracts/B.sol\x27"⟩
      else .ok ("// " ++ path) }

/-- The contracts of `P.sol`: `Foo` is complete, `Broken` has no `evm`, `Token`
is complete. -/
def pairUnits : List (String × CompiledUnit) :=
  [("Foo", completeUnit (.arr .nil) "60a0"), ("Broken", ⟨.arr .nil, none⟩),
    ("Token", completeUnit constructorAbi "6080")]

/-- A world with the single file `P.sol`, compiled into `pairUnits`. -/
def brokenUnit : World :=
  { scenario with
    readdirSync := ["P.sol"]
    compile := fun _ => .ok { errors := none, contracts := some [("P.sol", pairUnits)] } }

/-- A world with the files `A.sol` and `B.sol`, each of which defines a contract
named `Token`; the bytecode stands for the source it was compiled from. -/
def sameName : World :=
  { scenario with
    readdirSync := ["A.sol", "B.sol"]
    compile := fun input =>
      .ok { errors := none
            contracts := some (input.sources.map fun src =>
              (src.1, [("Token", completeUnit constructorAbi src.2)])) } }

/-- A file system without any folder or file. -/
def emptyFileSystem : FileSystem :=
  { dirs := fun _ => false, files := fun _ => none }

/-- The world `scenario` with the files `A.sol` and `B.sol` only. -/
def twoFiles : World :=
  { scenario with readdirSync := ["A.sol", "B.sol"] }

/-- The world `scenario` with a file `Foo.bin.txt` that cannot be opened for
writing. -/
def readOnlyBin : World :=
  { scenario with
    writeFileSync := fun path _ =>
      if path = "/app/artifacts/Foo.bin.txt" then
        some ⟨"EACCES: permission denied, open \x27/app/artifacts/Foo.bin.txt\x27"⟩
      else none }

/-- A world whose contracts folder holds no `.sol` file. -/
def noSources : World :=
  { scenario with readdirSync := ["README.md", "Token.sol.bak", "sol"] }

end Compile

namespace Compile

/-! ## Traces -/

theorem writes_append (xs ys : List Event) : writes (xs ++ ys) = writes xs ++ writes ys := by
  simp [writes]

theorem compilerCalls_append (xs ys : List Event) :
    compilerCalls (xs ++ ys) = compilerCalls xs ++ compilerCalls ys := by
  simp [compilerCalls]

theorem writes_reportErrors (errors : List Diagnostic) : writes (reportErrors errors) = [] := by
  induction errors with
  | nil => rfl
  | cons err rest ih => simpa [reportErrors, writes, Event.written] using ih

theorem writes_reportDiagnostics (errors : Option (List Diagnostic)) :
    writes (reportDiagnostics errors) = [] := by
  cases errors with
  | none => rfl
  | some errs => exact writes_reportErrors errs

theorem reportErrors_eq_map (errors : List Diagnostic) :
    reportErrors errors = errors.map (fun err => Event.log (diagnosticLine err)) := by
  induction errors with
  | nil => rfl
  | cons err rest ih => simp [reportErrors, ih]

theorem processOutput_events (w : World) (fileName : String) (output : CompileResult) :
    (processOutput w fileName output).events
      = reportDiagnostics output.errors
        ++ (processOutput w fileName { output with errors := none }).events := by
  obtain ⟨errors, contracts⟩ := output
  cases contracts with
  | none => simp [processOutput, reportDiagnostics]
  | some contracts =>
    simp only [processOutput]
    cases List.lookup fileName contracts <;> simp [reportDiagnostics]

theorem processOutput_thrown (w : World) (fileName : String) (output : CompileResult) :
    (processOutput w fileName output).thrown
      = (processOutput w fileName { output with errors := none }).thrown := by
  obtain ⟨errors, contracts⟩ := output
  cases contracts with
  | none => rfl
  | some contracts =>
    simp only [processOutput]
    cases List.lookup fileName contracts <;> rfl

/-! ## Diagnostics -/

/-- C1: the files written for a compiler result, and the failure of their
persistence, are the same as for the same result with its diagnostics removed:
whatever the severity of the diagnostics, the contracts of the result are
persisted. -/
theorem persistence_ignores_diagnostics (w : World) (fileName : String)
    (output : CompileResult) :
    writes (processOutput w fileName output).events
        = writes (processOutput w fileName { output with errors := none }).events
      ∧ (processOutput w fileName output).thrown
        = (processOutput w fileName { output with errors := none }).thrown := by
  refine ⟨?_, processOutput_thrown w fileName output⟩
  rw [processOutput_events, writes_append, writes_reportDiagnostics, List.nil_append]

/-- C1 at the result of `D.sol` in the world `scenario`: a diagnostic of
severity `error` and the two files of `Baz`. -/
theorem persistence_ignores_diagnostics_witness :
    writes (processOutput scenario "D.sol" resultD).events
      = [("/app/artifacts/Baz.abi.json", "[]"), ("/app/artifacts/Baz.bin.txt", "60c0")] :=
  (persistence_ignores_diagnostics scenario "D.sol" resultD).1.trans (by decide)

/-- C10: the events of a compiler result start with one report per diagnostic,
in the order of `output.errors`, marked blocking when the severity is `error`
and advisory for any other or a missing severity; they are followed by the
events of the same result without diagnostics, and a result without `errors`
has no report. -/
theorem diagnostics_reported_in_order (w : World) (fileName : String)
    (output : CompileResult) :
    (processOutput w fileName output).events
      = (match output.errors with
          | none => []
          | some errors => errors.map (fun err =>
              Event.log ((if err.severity = some "error" then "❌ " else "⚠️ ")
                ++ err.formattedMessage.getD "undefined")))
        ++ (processOutput w fileName { output with errors := none }).events := by
  rw [processOutput_events]
  congr 1
  cases output.errors with
  | none => rfl
  | some errors =>
    simp only [reportDiagnostics, reportErrors_eq_map]
    apply List.map_congr_left
    intro err _
    congr 1
    unfold diagnosticLine
    have h1 : "❌" ++ " " = "❌ " := by decide
    have h2 : "⚠️" ++ " " = "⚠️ " := by decide
    cases err.formattedMessage <;> split <;> simp [h1, h2]

/-- C10 at the result of `D.sol` in the world `scenario`: a blocking report, an
advisory report for the diagnostic without severity, then the persistence of
`Baz`. -/
theorem diagnostics_reported_in_order_witness :
    (processOutput scenario "D.sol" resultD).events
      = [Event.log "❌ TypeError: bad", Event.log "⚠️ undefined",
          Event.writeFileSync "/app/artifacts/Baz.abi.json" "[]",
          Event.writeFileSync "/app/artifacts/Baz.bin.txt" "60c0",
          Event.log "\n✅ Compiled: Baz",
          Event.log "📦 ABI saved to: /app/artifacts/Baz.abi.json",
          Event.log "🔗 Bytecode saved to: /app/artifacts/Baz.bin.txt"] :=
  (diagnostics_reported_in_order scenario "D.sol" resultD).trans (by decide)

/-! ## The loop over the files -/

theorem compileAll_cons_ok (w : World) (fileName source : String) (rest : List String)
    (hread : w.readFileSync (w.pathJoin w.contractsDir fileName) = .ok source) :
    compileAll w (fileName :: rest)
      = ⟨compileFile w fileName source ++ (compileAll w rest).events,
          (compileAll w rest).thrown⟩ := by
  simp [compileAll, hread]

theorem compileAll_cons_error (w : World) (fileName : String) (rest : List String)
    (err : JsError)
    (hread : w.readFileSync (w.pathJoin w.contractsDir fileName) = .error err) :
    compileAll w (fileName :: rest) = ⟨[], some err⟩ := by
  simp [compileAll, hread]

theorem compileAll_readable (w : World) (before : List String)
    (hbefore : ∀ f ∈ before, ∃ source,
      w.readFileSync (w.pathJoin w.contractsDir f) = .ok source) :
    (compileAll w before).thrown = none := by
  induction before with
  | nil => rfl
  | cons f rest ih =>
    obtain ⟨source, hs⟩ := hbefore f (List.mem_cons_self f rest)
    rw [compileAll_cons_ok w f source rest hs]
    exact ih (fun g hg => hbefore g (List.mem_cons_of_mem f hg))

theorem compileAll_append (w : World) (before after : List String)
    (hbefore : (compileAll w before).thrown = none) :
    compileAll w (before ++ after)
      = ⟨(compileAll w before).events ++ (compileAll w after).events,
          (compileAll w after).thrown⟩ := by
  induction before with
  | nil => simp [compileAll]
  | cons f rest ih =>
    cases hf : w.readFileSync (w.pathJoin w.contractsDir f) with
    | error err => simp [compileAll, hf] at hbefore
    | ok source =>
      rw [compileAll_cons_ok w f source rest hf] at hbefore
      rw [List.cons_append, compileAll_cons_ok w f source (rest ++ after) hf,
        compileAll_cons_ok w f source rest hf, ih hbefore]
      simp

theorem files_eq_nil_iff (w : World) :
    files w = [] ↔ ∀ file ∈ w.readdirSync, endsWithSol file = false := by
  simp [files, List.filter_eq_nil_iff]

/-! ## Discovery -/

/-- C3: the run takes the exit `process.exit(1)` exactly when no entry of the
contracts folder has a name ending in `.sol`; it then ends with status 1, has
called the compiler for no file and has written no file. -/
theorem exit_when_no_sources (w : World) (artifactsDirExists : Bool) :
    ((run w artifactsDirExists).exit = Exit.exited 1
        ↔ ∀ file ∈ w.readdirSync, endsWithSol file = false)
      ∧ ((∀ file ∈ w.readdirSync, endsWithSol file = false) →
          (run w artifactsDirExists).exit.status = 1
            ∧ compilerCalls (run w artifactsDirExists).events = []
            ∧ writes (run w artifactsDirExists).events = []) := by
  rw [← files_eq_nil_iff]
  constructor
  · constructor
    · intro h
      by_contra hne
      have hlen : ¬ (files w).length = 0 := by simpa using hne
      simp only [run, main, hlen, if_false] at h
      cases hthrown : (compileAll w (files w)).thrown <;> simp [hthrown] at h
    · intro h
      simp [run, main, h]
  · intro h
    cases artifactsDirExists <;>
      simp [run, main, h, Exit.status, compilerCalls, writes, Event.request, Event.written]

/-- C3 at two worlds: a folder without any `.sol` file, and a folder with some. -/
theorem exit_when_no_sources_witness :
    ((run noSources false).exit.status = 1
        ∧ compilerCalls (run noSources false).events = []
        ∧ writes (run noSources false).events = [])
      ∧ (run scenario false).exit ≠ Exit.exited 1 :=
  ⟨(exit_when_no_sources noSources false).2 (by decide),
    fun h => absurd ((exit_when_no_sources scenario false).1.1 h) (by decide)⟩

/-! ## Failures confined to a file -/

/-- C4: when the compiler returns no contract for a file that was read (the
result has no `contracts`, or `contracts` has no entry for the file, or an empty
one), the file writes nothing, and the loop goes on with the remaining files as
it runs on them alone. -/
theorem zero_units_no_artifact (w : World) (fileName source : String)
    (rest : List String) (output : CompileResult)
    (hread : w.readFileSync (w.pathJoin w.contractsDir fileName) = .ok source)
    (hcompile : w.compile (mkInput fileName source) = .ok output)
    (hzero : output.contracts = none ∨ ∃ contracts, output.contracts = some contracts
      ∧ (contracts.lookup fileName = none ∨ contracts.lookup fileName = some [])) :
    writes (compileFile w fileName source) = []
      ∧ compileAll w (fileName :: rest)
        = ⟨compileFile w fileName source ++ (compileAll w rest).events,
            (compileAll w rest).thrown⟩ := by
  refine ⟨?_, compileAll_cons_ok w fileName source rest hread⟩
  obtain ⟨errors, contracts⟩ := output
  have hdiag := writes_reportDiagnostics errors
  simp only [writes] at hdiag
  rcases hzero with h | ⟨cs, h, h2 | h2⟩
  · simp only at h
    subst h
    simp [compileFile, hcompile, processOutput, catchBlock, writes, Event.written, hdiag]
  · simp only at h
    subst h
    simp [compileFile, hcompile, processOutput, catchBlock, writes, Event.written, hdiag, h2]
  · simp only at h
    subst h
    simp [compileFile, hcompile, processOutput, catchBlock, writes, Event.written, hdiag, h2,
      persistUnits]

/-- C4 at the file `B.sol` of the world `scenario`, whose result has no
`contracts`; in the world `twoFiles` the run writes the files of `Foo` and `Bar`
and ends with status 0. -/
theorem zero_units_no_artifact_witness :
    (writes (compileFile scenario "B.sol" "// /app/contracts/B.sol") = []
      ∧ compileAll scenario ["B.sol", "C.sol", "D.sol"]
        = ⟨compileFile scenario "B.sol" "// /app/contracts/B.sol"
              ++ (compileAll scenario ["C.sol", "D.sol"]).events,
            (compileAll scenario ["C.sol", "D.sol"]).thrown⟩)
      ∧ (run twoFiles false).exit.status = 0
      ∧ (writes (run twoFiles false).events).map Prod.fst
        = ["/app/artifacts/Foo.abi.json", "/app/artifacts/Foo.bin.txt",
            "/app/artifacts/Bar.abi.json", "/app/artifacts/Bar.bin.txt"] :=
  ⟨zero_units_no_artifact scenario "B.sol" "// /app/contracts/B.sol" ["C.sol", "D.sol"]
      resultB (by rfl) (by rfl) (Or.inl rfl),
    by decide, by decide⟩

/-- C6: when the call of the compiler throws for a file that was read, the
`catch` block reports it, the file writes nothing, and the loop goes on with the
remaining files as it runs on them alone. -/
theorem gateway_failure_confined (w : World) (fileName source : String)
    (rest : List String) (err : JsError)
    (hread : w.readFileSync (w.pathJoin w.contractsDir fileName) = .ok source)
    (hcompile : w.compile (mkInput fileName source) = .error err) :
    compileFile w fileName source
        = [Event.compile (mkInput fileName source), Event.error (failedLine fileName err)]
      ∧ writes (compileFile w fileName source) = []
      ∧ compileAll w (fileName :: rest)
        = ⟨[Event.compile (mkInput fileName source), Event.error (failedLine fileName err)]
              ++ (compileAll w rest).events,
            (compileAll w rest).thrown⟩ := by
  have h : compileFile w fileName source
      = [Event.compile (mkInput fileName source), Event.error (failedLine fileName err)] := by
    simp [compileFile, hcompile]
  refine ⟨h, ?_, ?_⟩
  · rw [h]; rfl
  · rw [compileAll_cons_ok w fileName source rest hread, h]

/-- C6 at the file `C.sol` of the world `scenario`, on which the compiler
crashes. -/
theorem gateway_failure_confined_witness :
    compileFile scenario "C.sol" "// /app/contracts/C.sol"
        = [Event.compile (mkInput "C.sol" "// /app/contracts/C.sol"),
            Event.error (failedLine "C.sol" ⟨"Unexpected token < in JSON at position 0"⟩)]
      ∧ writes (compileFile scenario "C.sol" "// /app/contracts/C.sol") = []
      ∧ compileAll scenario ["C.sol", "D.sol"]
        = ⟨[Event.compile (mkInput "C.sol" "// /app/contracts/C.sol"),
              Event.error (failedLine "C.sol" ⟨"Unexpected token < in JSON at position 0"⟩)]
              ++ (compileAll scenario ["D.sol"]).events,
            (compileAll scenario ["D.sol"]).thrown⟩ :=
  gateway_failure_confined scenario "C.sol" "// /app/contracts/C.sol" ["D.sol"]
    ⟨"Unexpected token < in JSON at position 0"⟩ (by rfl) (by rfl)

/-- C5, refuted: in the world `unreadableB` the file `B.sol` cannot be read while
`D.sol` can; the run ends on an uncaught error with status 1, after compiling
`A.sol` only: `D.sol` is never compiled and none of its files is written. -/
theorem unreadable_file_counterexample :
    unreadableB.readFileSync (unreadableB.pathJoin unreadableB.contractsDir "D.sol")
        = .ok "// /app/contracts/D.sol"
      ∧ (run unreadableB true).exit.status = 1
      ∧ compilerCalls (run unreadableB true).events
        = [mkInput "A.sol" "// /app/contracts/A.sol"]
      ∧ (writes (run unreadableB true).events).map Prod.fst
        = ["/app/artifacts/Foo.abi.json", "/app/artifacts/Foo.bin.txt",
            "/app/artifacts/Bar.abi.json", "/app/artifacts/Bar.bin.txt"] := by
  refine ⟨rfl, ?_, ?_, ?_⟩ <;> decide

/-- C5, amended: when a file cannot be read and every file before it can, the
run ends at that file on the uncaught error of the read, with status 1; its
trace is the trace of the files before it, which are processed as usual, and no
later file is read or compiled. -/
theorem unreadable_file_ends_run (w : World) (artifactsDirExists : Bool)
    (before after : List String) (fileName : String) (err : JsError)
    (hfiles : files w = before ++ fileName :: after)
    (hbefore : ∀ f ∈ before, ∃ source,
      w.readFileSync (w.pathJoin w.contractsDir f) = .ok source)
    (hread : w.readFileSync (w.pathJoin w.contractsDir fileName) = .error err) :
    (run w artifactsDirExists).exit = Exit.uncaught err
      ∧ (run w artifactsDirExists).exit.status = 1
      ∧ (main w).events = (compileAll w before).events
      ∧ (compileAll w before).thrown = none := by
  have hb := compileAll_readable w before hbefore
  have hall : compileAll w (files w) = ⟨(compileAll w before).events, some err⟩ := by
    rw [hfiles, compileAll_append w before _ hb,
      compileAll_cons_error w fileName after err hread]
    simp
  have hlen : ¬ (files w).length = 0 := by simp [hfiles]
  refine ⟨?_, ?_, ?_, hb⟩
  · simp [run, main, hlen, hall]
  · simp [run, main, hlen, hall, Exit.status]
  · simp [main, hlen, hall]

/-- C5, amended, at the world `unreadableB`: `A.sol` is read, `B.sol` is not. -/
theorem unreadable_file_ends_run_witness :
    (run unreadableB false).exit
        = Exit.uncaught ⟨"EACCES: permission denied, open \x27/app/contracts/B.sol\x27"⟩
      ∧ (run unreadableB false).exit.status = 1
      ∧ (main unreadableB).events = (compileAll unreadableB ["A.sol"]).events
      ∧ (compileAll unreadableB ["A.sol"]).thrown = none :=
  unreadable_file_ends_run unreadableB false ["A.sol"] ["C.sol", "D.sol"] "B.sol"
    ⟨"EACCES: permission denied, open \x27/app/contracts/B.sol\x27"⟩ (by decide)
    (fun f hf => ⟨"// /app/contracts/A.sol", by
      rw [List.mem_singleton] at hf
      subst hf
      rfl⟩)
    (by rfl)

/-! ## Persistence of the contracts of a file -/

theorem persistUnits_cons_ok (w : World) (contractName : String) (abi : Json)
    (object : String) (rest : List (String × CompiledUnit))
    (habi : w.writeFileSync (abiPath w contractName) (abi.stringify "") = none)
    (hbin : w.writeFileSync (bytecodePath w contractName) object = none) :
    persistUnits w ((contractName, completeUnit abi object) :: rest)
      = ⟨[Event.writeFileSync (abiPath w contractName) (abi.stringify ""),
            Event.writeFileSync (bytecodePath w contractName) object]
            ++ savedLines w contractName ++ (persistUnits w rest).events,
          (persistUnits w rest).thrown⟩ := by
  simp [persistUnits, completeUnit, bytecodeObject, habi, hbin]

theorem writes_savedLines (w : World) (contractName : String) :
    writes (savedLines w contractName) = [] := rfl

theorem persistUnits_complete (w : World) (us : List (String × Json × String))
    (hwrite : ∀ u ∈ us, w.writeFileSync (abiPath w u.1) (u.2.1.stringify "") = none
      ∧ w.writeFileSync (bytecodePath w u.1) u.2.2 = none) :
    writes (persistUnits w (us.map fun u => (u.1, completeUnit u.2.1 u.2.2))).events
        = us.flatMap (fun u => [(abiPath w u.1, u.2.1.stringify ""),
            (bytecodePath w u.1, u.2.2)])
      ∧ (persistUnits w (us.map fun u => (u.1, completeUnit u.2.1 u.2.2))).thrown = none := by
  induction us with
  | nil => exact ⟨rfl, rfl⟩
  | cons u rest ih =>
    obtain ⟨h1, h2⟩ := hwrite u (List.mem_cons_self u rest)
    obtain ⟨ih1, ih2⟩ := ih (fun v hv => hwrite v (List.mem_cons_of_mem u hv))
    rw [List.map_cons, persistUnits_cons_ok w u.1 u.2.1 u.2.2 _ h1 h2]
    refine ⟨?_, ih2⟩
    simp only [writes_append, writes_savedLines, ih1, List.flatMap_cons]
    simp [writes, Event.written]

/-- C2, refuted: the result `resultA` maps `A.sol` to the contracts `Foo` and
`Bar`, both with their bytecode.  In the world `readOnlyBin`, where the write of
`Foo.bin.txt` fails, the only file written for the result is `Foo.abi.json`:
`Foo` has one file instead of two and `Bar` has none. -/
theorem two_files_counterexample :
    (resultA.contracts.bind (List.lookup "A.sol")).map (List.map Prod.fst)
        = some ["Foo", "Bar"]
      ∧ (writes (processOutput readOnlyBin "A.sol" resultA).events).map Prod.fst
        = ["/app/artifacts/Foo.abi.json"]
      ∧ (processOutput readOnlyBin "A.sol" resultA).thrown
        = some ⟨"EACCES: permission denied, open \x27/app/artifacts/Foo.bin.txt\x27"⟩ := by
  refine ⟨?_, ?_, ?_⟩ <;> decide

/-- C2, amended: for a compiler result whose contracts of the file all carry
their bytecode, and when no write of their files fails, the files written for
the result are, contract after contract, `<name>.abi.json` in the artifacts
folder with the ABI printed by `JSON.stringify(abi, null, 2)` and
`<name>.bin.txt` with the text of `evm.bytecode.object`, and nothing else;
nothing is thrown. -/
theorem two_files_per_unit (w : World) (fileName : String) (output : CompileResult)
    (contracts : List (String × List (String × CompiledUnit)))
    (us : List (String × Json × String))
    (hcontracts : output.contracts = some contracts)
    (hunits : contracts.lookup fileName
      = some (us.map fun u => (u.1, completeUnit u.2.1 u.2.2)))
    (hwrite : ∀ u ∈ us, w.writeFileSync (abiPath w u.1) (u.2.1.stringify "") = none
      ∧ w.writeFileSync (bytecodePath w u.1) u.2.2 = none) :
    writes (processOutput w fileName output).events
        = us.flatMap (fun u =>
            [(w.pathJoin w.artifactsDir (u.1 ++ ".abi.json"), u.2.1.stringify ""),
              (w.pathJoin w.artifactsDir (u.1 ++ ".bin.txt"), u.2.2)])
      ∧ (processOutput w fileName output).thrown = none := by
  obtain ⟨h1, h2⟩ := persistUnits_complete w us hwrite
  obtain ⟨errors, cs⟩ := output
  simp only at hcontracts
  subst hcontracts
  simp only [processOutput, hunits, writes_append, writes_reportDiagnostics, h1, h2,
    List.nil_append, and_true]
  rfl

/-- C2, amended, at the file `A.sol` of the world `scenario`, with the text of
the four files written. -/
theorem two_files_per_unit_witness :
    writes (processOutput scenario "A.sol" resultA).events
        = [("/app/artifacts/Foo.abi.json",
              "[\n  \x7b\n    \"type\": \"constructor\",\n    \"inputs\": []\n  \x7d\n]"),
            ("/app/artifacts/Foo.bin.txt", "6080"),
            ("/app/artifacts/Bar.abi.json", "[]"),
            ("/app/artifacts/Bar.bin.txt", "60a0")]
      ∧ (processOutput scenario "A.sol" resultA).thrown = none :=
  two_files_per_unit scenario "A.sol" resultA
    [("A.sol", [("Foo", completeUnit constructorAbi "6080"),
                ("Bar", completeUnit (.arr .nil) "60a0")])]
    [("Foo", constructorAbi, "6080"), ("Bar", .arr .nil, "60a0")] rfl rfl
    (fun _ _ => ⟨rfl, rfl⟩)

theorem persistUnits_append (w : World) (before after : List (String × CompiledUnit))
    (hbefore : (persistUnits w before).thrown = none) :
    persistUnits w (before ++ after)
      = ⟨(persistUnits w before).events ++ (persistUnits w after).events,
          (persistUnits w after).thrown⟩ := by
  induction before with
  | nil => simp [persistUnits]
  | cons u rest ih =>
    obtain ⟨contractName, contract⟩ := u
    simp only [List.cons_append, persistUnits] at hbefore ⊢
    cases h1 : w.writeFileSync (abiPath w contractName) (contract.abi.stringify "") with
    | some err => simp [h1] at hbefore
    | none =>
      simp only [h1] at hbefore ⊢
      cases h2 : bytecodeObject contract with
      | error err => simp [h2] at hbefore
      | ok object =>
        simp only [h2] at hbefore ⊢
        cases h3 : w.writeFileSync (bytecodePath w contractName) object with
        | some err => simp [h3] at hbefore
        | none =>
          simp only [h3] at hbefore ⊢
          rw [show rest.append after = rest ++ after from rfl, ih hbefore]
          simp

theorem persistUnits_failing (w : World) (contractName : String) (contract : CompiledUnit)
    (after : List (String × CompiledUnit)) (err : JsError)
    (hfail : (persistUnits w [(contractName, contract)]).thrown = some err) :
    persistUnits w ((contractName, contract) :: after)
        = ⟨(persistUnits w [(contractName, contract)]).events, some err⟩
      ∧ (writes (persistUnits w [(contractName, contract)]).events = []
        ∨ writes (persistUnits w [(contractName, contract)]).events
          = [(abiPath w contractName, contract.abi.stringify "")]) := by
  simp only [persistUnits] at hfail ⊢
  cases h1 : w.writeFileSync (abiPath w contractName) (contract.abi.stringify "") with
  | some e1 =>
    simp only [h1, Option.some.injEq] at hfail ⊢
    subst hfail
    exact ⟨rfl, Or.inl rfl⟩
  | none =>
    simp only [h1] at hfail ⊢
    cases h2 : bytecodeObject contract with
    | error e2 =>
      simp only [h2, Option.some.injEq] at hfail ⊢
      subst hfail
      exact ⟨rfl, Or.inr rfl⟩
    | ok object =>
      simp only [h2] at hfail ⊢
      cases h3 : w.writeFileSync (bytecodePath w contractName) object with
      | some e3 =>
        simp only [h3, Option.some.injEq] at hfail ⊢
        subst hfail
        exact ⟨rfl, Or.inr rfl⟩
      | none => simp [h3] at hfail

/-- C7, refuted: in the world `brokenUnit` the file `P.sol` yields `Foo`,
`Broken` (without `evm`) and `Token`.  The run writes the pair of `Foo` and the
ABI of `Broken` and stops there: no file of `Token` is written, although `Token`
alone is persisted without failure. -/
theorem unit_failure_counterexample :
    writes (run brokenUnit true).events
        = [("/app/artifacts/Foo.abi.json", "[]"), ("/app/artifacts/Foo.bin.txt", "60a0"),
            ("/app/artifacts/Broken.abi.json", "[]")]
      ∧ (run brokenUnit true).exit = Exit.completed
      ∧ persistUnits brokenUnit [("Token", completeUnit constructorAbi "6080")]
        = ⟨[Event.writeFileSync "/app/artifacts/Token.abi.json"
                (constructorAbi.stringify ""),
              Event.writeFileSync "/app/artifacts/Token.bin.txt" "6080"]
              ++ savedLines brokenUnit "Token", none⟩ := by
  refine ⟨?_, ?_, ?_⟩ <;> decide

/-- C7, amended: the contracts of a file are persisted in enumeration order up to
the first failure.  When the contracts before one persist without failure and
that one fails, the trace is theirs followed by what the failing contract wrote
(nothing, or its ABI file alone), the failure is thrown to the `catch` block of
the file, and the contracts after it are not attempted. -/
theorem failure_abandons_later_units (w : World)
    (before after : List (String × CompiledUnit)) (contractName : String)
    (contract : CompiledUnit) (err : JsError)
    (hbefore : (persistUnits w before).thrown = none)
    (hfail : (persistUnits w [(contractName, contract)]).thrown = some err) :
    persistUnits w (before ++ (contractName, contract) :: after)
        = ⟨(persistUnits w before).events
              ++ (persistUnits w [(contractName, contract)]).events, some err⟩
      ∧ (writes (persistUnits w [(contractName, contract)]).events = []
        ∨ writes (persistUnits w [(contractName, contract)]).events
          = [(abiPath w contractName, contract.abi.stringify "")]) := by
  obtain ⟨h1, h2⟩ := persistUnits_failing w contractName contract after err hfail
  refine ⟨?_, h2⟩
  rw [persistUnits_append w before _ hbefore, h1]

/-- C7, amended, at the contracts of `P.sol` in the world `brokenUnit`. -/
theorem failure_abandons_later_units_witness :
    persistUnits brokenUnit pairUnits
        = ⟨(persistUnits brokenUnit [("Foo", completeUnit (.arr .nil) "60a0")]).events
              ++ (persistUnits brokenUnit [("Broken", ⟨.arr .nil, none⟩)]).events,
            some (typeError "bytecode")⟩
      ∧ (writes (persistUnits brokenUnit [("Broken", ⟨.arr .nil, none⟩)]).events = []
        ∨ writes (persistUnits brokenUnit [("Broken", ⟨.arr .nil, none⟩)]).events
          = [(abiPath brokenUnit "Broken", (Json.arr .nil).stringify "")]) :=
  failure_abandons_later_units brokenUnit [("Foo", completeUnit (.arr .nil) "60a0")]
    [("Token", completeUnit constructorAbi "6080")] "Broken" ⟨.arr .nil, none⟩
    (typeError "bytecode") (by rfl) (by rfl)

/-! ## The file system left by a run -/

theorem applyAll_append (fs : FileSystem) (xs ys : List Event) :
    fs.applyAll (xs ++ ys) = (fs.applyAll xs).applyAll ys := by
  induction xs generalizing fs with
  | nil => rfl
  | cons e rest ih => simp [FileSystem.applyAll, ih]

theorem files_applyAll (fs : FileSystem) (events : List Event) (path : String) :
    (fs.applyAll events).files path
      = match lastWrite events path with
        | some data => some data
        | none => fs.files path := by
  induction events generalizing fs with
  | nil => rfl
  | cons e rest ih =>
    simp only [FileSystem.applyAll, ih, lastWrite]
    cases lastWrite rest path with
    | some data => rfl
    | none =>
      cases e with
      | writeFileSync p data =>
        simp only [FileSystem.apply]
        split <;> rfl
      | _ => rfl

theorem dirs_applyAll (fs : FileSystem) (events : List Event) (path : String) :
    (fs.applyAll events).dirs path
      = (fs.dirs path || decide (Event.mkdirSync path ∈ events)) := by
  induction events generalizing fs with
  | nil => simp [FileSystem.applyAll]
  | cons e rest ih =>
    simp only [FileSystem.applyAll, ih]
    cases e with
    | mkdirSync p =>
      simp only [FileSystem.apply]
      by_cases h : path = p
      · subst h; simp
      · have h2 : ¬ p = path := fun h3 => h h3.symm
        simp [h, h2]
    | _ => simp [FileSystem.apply]

theorem lastWrite_append (xs ys : List Event) (path : String) :
    lastWrite (xs ++ ys) path
      = match lastWrite ys path with
        | some data => some data
        | none => lastWrite xs path := by
  induction xs with
  | nil =>
    simp only [List.nil_append, lastWrite]
    cases lastWrite ys path <;> rfl
  | cons e rest ih =>
    simp only [List.cons_append, lastWrite]
    rw [show rest.append ys = rest ++ ys from rfl, ih]
    cases lastWrite ys path <;> rfl

theorem applyAll_absorb (fs : FileSystem) (before events : List Event) :
    (fs.applyAll (before ++ events)).applyAll events = fs.applyAll (before ++ events) := by
  apply FileSystem.ext
  · funext path
    simp only [dirs_applyAll, List.mem_append]
    by_cases h : Event.mkdirSync path ∈ events <;> simp [h]
  · funext path
    rw [files_applyAll, files_applyAll, lastWrite_append]
    cases lastWrite events path <;> rfl

theorem existsSync_applyAll (fs : FileSystem) (events : List Event) (path : String)
    (h : fs.existsSync path = true) : (fs.applyAll events).existsSync path = true := by
  simp only [FileSystem.existsSync, dirs_applyAll, files_applyAll, Bool.or_eq_true] at h ⊢
  rcases h with h | h
  · exact Or.inl (Or.inl h)
  · right
    cases lastWrite events path with
    | some data => rfl
    | none => exact h

theorem existsSync_exec (w : World) (fs : FileSystem) :
    (exec w fs).existsSync w.artifactsDir = true := by
  unfold exec
  cases h : fs.existsSync w.artifactsDir with
  | true => exact existsSync_applyAll fs _ _ h
  | false =>
    simp [run, FileSystem.existsSync, dirs_applyAll]

/-- C9: a second run in the same world (same contracts folder, same answers of
the compiler) leaves the file system exactly as the first run left it; it
writes the same files with the same contents and ends the same way. -/
theorem rerun_leaves_same_artifacts (w : World) (fs : FileSystem) :
    exec w (exec w fs) = exec w fs
      ∧ writes (run w ((exec w fs).existsSync w.artifactsDir)).events
        = writes (run w (fs.existsSync w.artifactsDir)).events
      ∧ (run w ((exec w fs).existsSync w.artifactsDir)).exit
        = (run w (fs.existsSync w.artifactsDir)).exit := by
  refine ⟨?_, ?_, rfl⟩
  · have h := existsSync_exec w fs
    have h2 : exec w (exec w fs) = (exec w fs).applyAll (main w).events := by
      rw [exec, h]
      simp [run]
    rw [h2]
    exact applyAll_absorb fs _ (main w).events
  · rw [existsSync_exec]
    cases fs.existsSync w.artifactsDir <;>
      simp [run, writes, Event.written]

/-! ## Paths of the artifacts -/

theorem string_append_left_cancel (a b c : String) (h : a ++ c = b ++ c) : a = b := by
  have h2 := congrArg String.data h
  simp only [String.data_append] at h2
  exact String.ext (List.append_cancel_right h2)

theorem string_append_cancel (a b c : String) (h : a ++ b = a ++ c) : b = c := by
  have h2 := congrArg String.data h
  simp only [String.data_append] at h2
  exact String.ext (List.append_cancel_left h2)

theorem posixJoin_injective (dir a b : String) (h : posixJoin dir a = posixJoin dir b) :
    a = b :=
  string_append_cancel (dir ++ "/") a b h

theorem abi_ne_bin (a b : String) : a ++ ".abi.json" ≠ b ++ ".bin.txt" := by
  intro h
  have h2 := congrArg (fun s => s.data.getLast?) h
  simp [String.data_append, List.getLast?_append] at h2

theorem persistUnits_paths (w : World) (units : List (String × CompiledUnit))
    (hwrite : ∀ path data, w.writeFileSync path data = none)
    (hcomplete : ∀ u ∈ units, ∃ object, bytecodeObject u.2 = .ok object) :
    (writes (persistUnits w units).events).map Prod.fst
      = units.flatMap (fun u => [abiPath w u.1, bytecodePath w u.1]) := by
  induction units with
  | nil => rfl
  | cons u rest ih =>
    obtain ⟨contractName, contract⟩ := u
    obtain ⟨object, hobj⟩ := hcomplete (contractName, contract) (List.mem_cons_self _ _)
    have ih2 := ih (fun v hv => hcomplete v (List.mem_cons_of_mem _ hv))
    simp only at hobj
    simp only [persistUnits, hwrite, hobj, List.flatMap_cons, writes_append, List.map_append,
      ih2, writes_savedLines]
    simp [writes, Event.written]

theorem writes_catchBlock (fileName : String) (thrown : Option JsError) :
    writes (catchBlock fileName thrown) = [] := by
  cases thrown <;> rfl

theorem writtenPaths_eq (w : World) (fileName : String)
    (hwrite : ∀ path data, w.writeFileSync path data = none)
    (hcomplete : ∀ u ∈ returnedUnits w fileName, ∃ object, bytecodeObject u.2 = .ok object) :
    writtenPaths w fileName
      = (returnedUnits w fileName).flatMap (fun u => [abiPath w u.1, bytecodePath w u.1]) := by
  unfold writtenPaths returnedUnits at *
  cases hr : w.readFileSync (w.pathJoin w.contractsDir fileName) with
  | error err => rfl
  | ok source =>
    simp only [hr] at hcomplete ⊢
    unfold compileFile
    cases hc : w.compile (mkInput fileName source) with
    | error err => rfl
    | ok output =>
      obtain ⟨errors, contracts⟩ := output
      simp only [hc] at hcomplete ⊢
      have hcons : ∀ (xs : List Event), writes (Event.compile (mkInput fileName source) :: xs)
          = writes xs := fun xs => rfl
      cases contracts with
      | none =>
        simp [processOutput, hcons, writes_append, writes_reportDiagnostics, writes_catchBlock]
      | some cs =>
        simp only [processOutput] at hcomplete ⊢
        cases hl : List.lookup fileName cs with
        | none =>
          simp [hcons, writes_append, writes_reportDiagnostics, writes_catchBlock]
        | some units =>
          simp only [hl, Option.getD_some] at hcomplete ⊢
          simp only [hcons, writes_append, writes_reportDiagnostics, writes_catchBlock,
            List.nil_append, List.append_nil]
          exact persistUnits_paths w units hwrite hcomplete

theorem writes_compileAll (w : World) (names : List String)
    (hread : ∀ f ∈ names, ∃ source,
      w.readFileSync (w.pathJoin w.contractsDir f) = .ok source) :
    (writes (compileAll w names).events).map Prod.fst = names.flatMap (writtenPaths w) := by
  induction names with
  | nil => rfl
  | cons f rest ih =>
    obtain ⟨source, hs⟩ := hread f (List.mem_cons_self f rest)
    rw [compileAll_cons_ok w f source rest hs]
    simp only [writes_append, List.map_append, List.flatMap_cons,
      ih (fun g hg => hread g (List.mem_cons_of_mem f hg))]
    simp [writtenPaths, hs]

theorem writes_run (w : World) (artifactsDirExists : Bool)
    (hread : ∀ f ∈ files w, ∃ source,
      w.readFileSync (w.pathJoin w.contractsDir f) = .ok source) :
    (writes (run w artifactsDirExists).events).map Prod.fst
      = (files w).flatMap (writtenPaths w) := by
  have h : writes (run w artifactsDirExists).events = writes (main w).events := by
    cases artifactsDirExists <;> simp [run, writes, Event.written]
  rw [h]
  by_cases hlen : (files w).length = 0
  · have hnil : files w = [] := List.length_eq_zero.mp hlen
    simp [main, hnil, writes, Event.written]
  · simp only [main, hlen, if_false]
    exact writes_compileAll w (files w) hread

theorem length_flatMap_pair {α β : Type} (l : List α) (f g : α → β) :
    (l.flatMap fun a => [f a, g a]).length = 2 * l.length := by
  induction l with
  | nil => rfl
  | cons a rest ih => simp [List.flatMap_cons, ih]; omega

theorem nodup_artifact_paths (w : World) (names : List String)
    (hjoin : ∀ a b, w.pathJoin w.artifactsDir a = w.pathJoin w.artifactsDir b → a = b)
    (hnames : names.Nodup) :
    (names.flatMap fun n => [abiPath w n, bytecodePath w n]).Nodup := by
  have habi : ∀ a b, abiPath w a = abiPath w b → a = b := fun a b h =>
    string_append_left_cancel a b _ (hjoin _ _ h)
  have hbin : ∀ a b, bytecodePath w a = bytecodePath w b → a = b := fun a b h =>
    string_append_left_cancel a b _ (hjoin _ _ h)
  have hne : ∀ a b, abiPath w a ≠ bytecodePath w b := fun a b h =>
    abi_ne_bin a b (hjoin _ _ h)
  rw [List.nodup_flatMap]
  constructor
  · intro n _
    simp [hne]
  · refine List.Pairwise.imp ?_ hnames
    intro a b hab
    simp only [Function.onFun, List.disjoint_cons_left, List.mem_cons, List.mem_singleton,
      List.not_mem_nil, or_false, List.disjoint_nil_left, and_true, not_or]
    exact ⟨⟨fun h => hab (habi a b h), hne a b⟩, fun h => hne b a h.symm,
      fun h => hab (hbin a b h)⟩

/-- C8, refuted: in the world `sameName` the files `A.sol` and `B.sol` both
return a contract named `Token`.  The two files write the same two paths, the
run leaves two artifact files for two compiled contracts, not four, and the
bytecode left is the one of `B.sol`. -/
theorem shared_unit_name_counterexample :
    files sameName = ["A.sol", "B.sol"]
      ∧ writtenPaths sameName "A.sol"
        = ["/app/artifacts/Token.abi.json", "/app/artifacts/Token.bin.txt"]
      ∧ writtenPaths sameName "B.sol"
        = ["/app/artifacts/Token.abi.json", "/app/artifacts/Token.bin.txt"]
      ∧ ((files sameName).flatMap (returnedUnits sameName)).length = 2
      ∧ ((writes (run sameName false).events).map Prod.fst).dedup
        = ["/app/artifacts/Token.abi.json", "/app/artifacts/Token.bin.txt"]
      ∧ (exec sameName emptyFileSystem).files "/app/artifacts/Token.bin.txt"
        = some "// /app/contracts/B.sol" := by
  refine ⟨?_, ?_, ?_, ?_, ?_, ?_⟩ <;> decide

/-- C8, amended: when no contract name is returned twice in the run, every file
is read, every returned contract carries its bytecode, no write fails and
`path.join` sends different names of the artifacts folder to different paths,
the paths written for two different files are disjoint, no path is written
twice, and the run writes twice as many files as contracts were returned. -/
theorem distinct_names_disjoint_paths (w : World) (artifactsDirExists : Bool)
    (hjoin : ∀ a b, w.pathJoin w.artifactsDir a = w.pathJoin w.artifactsDir b → a = b)
    (hread : ∀ f ∈ files w, ∃ source,
      w.readFileSync (w.pathJoin w.contractsDir f) = .ok source)
    (hcomplete : ∀ u ∈ (files w).flatMap (returnedUnits w),
      (bytecodeObject u.2).toBool = true)
    (hwrite : ∀ path data, w.writeFileSync path data = none)
    (hnames : ((files w).flatMap fun f => (returnedUnits w f).map Prod.fst).Nodup) :
    List.Pairwise List.Disjoint ((files w).map (writtenPaths w))
      ∧ ((writes (run w artifactsDirExists).events).map Prod.fst).Nodup
      ∧ ((writes (run w artifactsDirExists).events).map Prod.fst).length
        = 2 * ((files w).flatMap (returnedUnits w)).length := by
  have hobj : ∀ f ∈ files w, ∀ u ∈ returnedUnits w f,
      ∃ object, bytecodeObject u.2 = .ok object := by
    intro f hf u hu
    have h := hcomplete u (List.mem_flatMap.mpr ⟨f, hf, hu⟩)
    cases hb : bytecodeObject u.2 with
    | error err => simp [hb, Except.toBool] at h
    | ok object => exact ⟨object, rfl⟩
  have hpaths : (files w).flatMap (writtenPaths w)
      = ((files w).flatMap (returnedUnits w)).flatMap
          (fun u => [abiPath w u.1, bytecodePath w u.1]) := by
    rw [List.flatMap_assoc]
    exact List.flatMap_congr (fun f hf => writtenPaths_eq w f hwrite (hobj f hf))
  have hpaths2 : (files w).flatMap (writtenPaths w)
      = ((files w).flatMap fun f => (returnedUnits w f).map Prod.fst).flatMap
          (fun n => [abiPath w n, bytecodePath w n]) := by
    rw [hpaths, List.flatMap_assoc, List.flatMap_assoc]
    exact List.flatMap_congr (fun f _ => by rw [List.flatMap_map])
  have hnodup : ((files w).flatMap (writtenPaths w)).Nodup := by
    rw [hpaths2]
    exact nodup_artifact_paths w _ hjoin hnames
  refine ⟨?_, ?_, ?_⟩
  · rw [List.flatMap_def, List.nodup_flatten] at hnodup
    exact hnodup.2
  · rw [writes_run w artifactsDirExists hread]
    exact hnodup
  · rw [writes_run w artifactsDirExists hread, hpaths]
    exact length_flatMap_pair _ _ _

/-- C8, amended, at the world `scenario`, whose files return `Foo`, `Bar` and
`Baz`. -/
theorem distinct_names_disjoint_paths_witness :
    List.Pairwise List.Disjoint ((files scenario).map (writtenPaths scenario))
      ∧ ((writes (run scenario false).events).map Prod.fst).Nodup
      ∧ ((writes (run scenario false).events).map Prod.fst).length
        = 2 * ((files scenario).flatMap (returnedUnits scenario)).length :=
  distinct_names_disjoint_paths scenario false
    (fun a b h => posixJoin_injective "/app/artifacts" a b h)
    (fun f _ => ⟨"// " ++ posixJoin "/app/contracts" f, rfl⟩)
    (by decide) (fun _ _ => rfl) (by decide)

end Compile
